import Mathlib

/-!
Verification of the PawnRandomix random-number core.

The C++ sources (randomix.cpp / randomix.hpp / randomix_impl.hpp and the two
plugin entry files main.cpp / main_samp.cpp) are embedded shallowly:

* unsigned 32/64-bit machine arithmetic is `Nat` with explicit `% 2^32` /
  `% 2^64` at every operation that can wrap;
* signed C `int` parameters are `Int`; a `static_cast<uint32_t>` of an `int`
  is `(· % 2^32).toNat` on the mathematical value (two's complement);
* a generator is viewed through its stream of raw 32-bit draws: a function
  `s : Nat → Nat` (the words produced by `next_uint32`) together with a read
  position, exactly the interface the bounded sampler and the distribution
  layer consume;
* rejection loops that the C++ runs without a structural bound are modelled
  with an explicit fuel parameter, `none` meaning "no result within `fuel`
  iterations";
* `float` arithmetic in the geometric samplers is modelled over `ℚ`;
  the concrete values appearing in theorems below (0, -1, 3, …) are exactly
  representable in `float`, so no rounding is abstracted away where it
  matters.
-/

/-- `2^32`, the modulus of `uint32_t` arithmetic. -/
def U32 : Nat := 4294967296

/-- `2^64`, the modulus of `uint64_t` arithmetic. -/
def U64 : Nat := 18446744073709551616

namespace PCG32

/-- The rejection loop of `PCG32::next_bounded` (randomix.cpp:64-67):
`while (leftover < threshold) { m = next_uint32() * bound; leftover = m; }`.
`s` is the raw 32-bit draw stream, `p` the read position, `fuel` bounds the
number of re-draws (the C++ loop itself is unbounded). -/
def next_bounded_loop (bound threshold : Nat) (s : Nat → Nat) : Nat → Nat → Option (Nat × Nat)
  | _, 0 => none
  | p, fuel + 1 =>
    let m := (s p % U32) * bound
    let leftover := m % U32
    if leftover < threshold then next_bounded_loop bound threshold s (p + 1) fuel
    else some (m / U32, p + 1)

/-- `PCG32::next_bounded` (randomix.cpp:56-71), Lemire's method: returns the
drawn value together with the new stream position. -/
def next_bounded (bound : Nat) (s : Nat → Nat) (p fuel : Nat) : Option (Nat × Nat) :=
  if bound = 0 then some (0, p)
  else
    let m := (s p % U32) * bound
    let leftover := m % U32
    if leftover < bound then
      let threshold := (U32 - bound) % bound
      if leftover < threshold then next_bounded_loop bound threshold s (p + 1) fuel
      else some (m / U32, p + 1)
    else some (m / U32, p + 1)

end PCG32

namespace ChaChaRNG

/-- `ChaChaRNG::next_bounded` (randomix.cpp:280-296).  Identical to the PCG32
version except for the extra `if (bound == 1) return 0;` fast path. -/
def next_bounded (bound : Nat) (s : Nat → Nat) (p fuel : Nat) : Option (Nat × Nat) :=
  if bound = 0 then some (0, p)
  else if bound = 1 then some (0, p)
  else
    let m := (s p % U32) * bound
    let leftover := m % U32
    if leftover < bound then
      let threshold := (U32 - bound) % bound
      if leftover < threshold then PCG32.next_bounded_loop bound threshold s (p + 1) fuel
      else some (m / U32, p + 1)
    else some (m / U32, p + 1)

end ChaChaRNG

/-- Acceptance predicate of a single Lemire draw `r` for `bound`: the draw is
kept iff the low 32 bits of `r * bound` are at least `(0u - bound) % bound`
(randomix.cpp:62-67; a draw with `leftover ≥ bound` never enters the slow
path and is also kept). -/
def lemire_accept (bound r : Nat) : Prop :=
  ¬ (r * bound % U32 < (U32 - bound) % bound)

instance (bound r : Nat) : Decidable (lemire_accept bound r) := by
  unfold lemire_accept; infer_instance

/-- The value an accepted Lemire draw `r` produces: the high 32 bits of
`r * bound` (randomix.cpp:70). -/
def lemire_val (bound r : Nat) : Nat := r * bound / U32

namespace ChaChaRNG

/-- `ChaChaRNG::rotl32` (randomix.cpp:74-76): 32-bit left rotation. -/
def rotl32 (x n : Nat) : Nat :=
  ((x <<< n) % U32) ||| ((x % U32) >>> (32 - n))

/-- `ChaChaRNG::quarter_round` (randomix.cpp:78-83): the four add-rotate-xor
steps with rotation amounts 16, 12, 8, 7, acting on four words. -/
def quarter_round (a b c d : Nat) : Nat × Nat × Nat × Nat :=
  let a := (a + b) % U32
  let d := rotl32 (d ^^^ a) 16
  let c := (c + d) % U32
  let b := rotl32 (b ^^^ c) 12
  let a := (a + b) % U32
  let d := rotl32 (d ^^^ a) 8
  let c := (c + d) % U32
  let b := rotl32 (b ^^^ c) 7
  (a, b, c, d)

/-- Apply `quarter_round` in place to the four words of `blk` at indices
`i0 i1 i2 i3` (the reference-parameter call `quarter_round(block[i0], ...)`). -/
def qrAt (blk : List Nat) (i0 i1 i2 i3 : Nat) : List Nat :=
  let r := quarter_round (blk.getD i0 0) (blk.getD i1 0) (blk.getD i2 0) (blk.getD i3 0)
  (((blk.set i0 r.1).set i1 r.2.1).set i2 r.2.2.1).set i3 r.2.2.2

/-- One iteration of the round loop of `generate_block` (randomix.cpp:120-130):
four column quarter-rounds followed by four diagonal quarter-rounds. -/
def double_round (blk : List Nat) : List Nat :=
  let blk := qrAt blk 0 4 8 12
  let blk := qrAt blk 1 5 9 13
  let blk := qrAt blk 2 6 10 14
  let blk := qrAt blk 3 7 11 15
  let blk := qrAt blk 0 5 10 15
  let blk := qrAt blk 1 6 11 12
  let blk := qrAt blk 2 7 8 13
  qrAt blk 3 4 9 14

/-- `ChaChaRNG::ROUNDS` (randomix.hpp:27). -/
def ROUNDS : Nat := 20

/-- The round loop `for (int i = 0; i < ROUNDS; i += 2)` of `generate_block`
and `expand_seed`: `k` remaining iterations, each one `double_round`. -/
def rounds_loop : Nat → List Nat → List Nat
  | 0, blk => blk
  | k + 1, blk => rounds_loop k (double_round blk)

/-- The word-wise feed-forward `block[i] += state[i]` (randomix.cpp:132-134). -/
def feed_forward (blk st : List Nat) : List Nat :=
  List.zipWith (fun b s => (b + s) % U32) blk st

/-- `ChaChaRNG::CONSTANTS` (randomix.hpp:35-37). -/
def CONSTANTS : List Nat := [0x61707865, 0x3320646e, 0x79622d32, 0x6b206574]

/-- `ChaChaRNG::RESEED_THRESHOLD = 32 * 1024 * 1024` (randomix.hpp:33). -/
def RESEED_THRESHOLD : Nat := 33554432

end ChaChaRNG

/-- The mutable fields of class `ChaChaRNG` (randomix.hpp:25-54): the 16-word
cipher state, the 16-word output block, the read cursor into it, the 64-bit
block counter and the bytes-since-reseed account. -/
structure ChaChaRNG where
  state : List Nat
  block : List Nat
  position : Nat
  counter : Nat
  bytes_generated : Nat
deriving DecidableEq

namespace ChaChaRNG

/-- `ChaChaRNG::generate_block` (randomix.cpp:117-142): copy the state, run
the round loop, feed the pre-round state forward, step the 64-bit counter and
store it little-endian in words 12/13, account 64 bytes, reset the cursor. -/
def generate_block (g : ChaChaRNG) : ChaChaRNG :=
  let blk := feed_forward (rounds_loop (ROUNDS / 2) g.state) g.state
  let counter := (g.counter + 1) % U64
  let st := (g.state.set 12 (counter % U32)).set 13 ((counter >>> 32) % U32)
  { state := st, block := blk, position := 0, counter := counter,
    bytes_generated := (g.bytes_generated + 64) % U64 }

/-- The `temp_state` built by `ChaChaRNG::expand_seed` (randomix.cpp:156-174)
from the 64-bit seed and the high-resolution clock reading `nanos`. -/
def expand_seed_state (seed nanos : Nat) : List Nat :=
  CONSTANTS ++
  [seed % U32, (seed >>> 32) % U32,
   (seed ^^^ 0x5A5A5A5A) % U32, ((seed >>> 32) ^^^ 0xA5A5A5A5) % U32,
   nanos % U32, (nanos >>> 32) % U32,
   (nanos ^^^ seed) % U32, ((nanos >>> 32) ^^^ (seed >>> 32)) % U32,
   0, 0, 0, 0]

/-- The `while (generated < count)` loop of `expand_seed`
(randomix.cpp:179-204).  The fuel argument only makes the recursion
structural; each iteration emits at least one word, so `fuel = count`
reproduces the C++ loop exactly. -/
def expand_seed_loop : Nat → List Nat → Nat → List Nat
  | 0, _, _ => []
  | fuel + 1, st, count =>
    if count = 0 then []
    else
      let blk := feed_forward (rounds_loop (ROUNDS / 2) st) st
      let to_copy := min count 16
      let t12 := (st.getD 12 0 + 1) % U32
      let st' := if t12 = 0 then (st.set 12 t12).set 13 ((st.getD 13 0 + 1) % U32)
                 else st.set 12 t12
      blk.take to_copy ++ expand_seed_loop fuel st' (count - to_copy)

/-- `ChaChaRNG::expand_seed` (randomix.cpp:155-208): derive `count` words of
key material from the seed and the clock reading by iterating the cipher
core. -/
def expand_seed (seed nanos count : Nat) : List Nat :=
  expand_seed_loop count (expand_seed_state seed nanos) count

/-- `ChaChaRNG::seed` (randomix.cpp:249-265): re-key from a 64-bit seed.  The
high-resolution clock reading consumed inside `expand_seed` is the explicit
parameter `nanos`.  The output block is left as it is; `position = 16` forces
regeneration before the next read. -/
def seed (g : ChaChaRNG) (s nanos : Nat) : ChaChaRNG :=
  let expanded := expand_seed s nanos 12
  let st := CONSTANTS ++
    [expanded.getD 0 0, expanded.getD 1 0, expanded.getD 2 0, expanded.getD 3 0,
     expanded.getD 4 0, expanded.getD 5 0, expanded.getD 6 0, expanded.getD 7 0,
     0, 0, expanded.getD 8 0, expanded.getD 9 0]
  { g with state := st, counter := 0, bytes_generated := 0, position := 16 }

/-- `ChaChaRNG::check_reseed` (randomix.cpp:144-153).  The value the OS
entropy call would return is the explicit parameter `entropy`; zero means
"no entropy available".  `nanos` is the clock reading a reseed would consume. -/
def check_reseed (entropy nanos : Nat) (g : ChaChaRNG) : ChaChaRNG :=
  if g.bytes_generated ≥ RESEED_THRESHOLD then
    if entropy ≠ 0 then
      let current_seed := ((g.state.getD 4 0) <<< 32) ||| (g.state.getD 5 0)
      let g' := g.seed (current_seed ^^^ entropy) nanos
      { g' with bytes_generated := 0 }
    else g
  else g

/-- `ChaChaRNG::next_uint32` (randomix.cpp:267-273). -/
def next_uint32 (entropy nanos : Nat) (g : ChaChaRNG) : Nat × ChaChaRNG :=
  let g := check_reseed entropy nanos g
  let g := if g.position ≥ 16 then generate_block g else g
  (g.block.getD g.position 0, { g with position := g.position + 1 })

/-- The generator state after `k` calls to `next_uint32`. -/
def steps (entropy nanos : Nat) (g : ChaChaRNG) : Nat → ChaChaRNG
  | 0 => g
  | k + 1 => (next_uint32 entropy nanos (steps entropy nanos g k)).2

/-- The `k`-th word drawn from `g` (0-based). -/
def nth_draw (entropy nanos : Nat) (g : ChaChaRNG) (k : Nat) : Nat :=
  (next_uint32 entropy nanos (steps entropy nanos g k)).1

end ChaChaRNG

/-- `INT_MAX` of a 32-bit `int`. -/
def INT_MAX : Int := 2147483647

/-- `static_cast<int>` of a `uint32_t` value: two's-complement reinterpretation. -/
def toInt32 (n : Nat) : Int :=
  if n % U32 < 2147483648 then ((n % U32 : Nat) : Int)
  else ((n % U32 : Nat) : Int) - 4294967296

/-- `static_cast<uint32_t>` of an `int` value (two's-complement wrap). -/
def toUInt32 (i : Int) : Nat := (i % 4294967296).toNat

/-- `PCG32::next_float` / the samplers' `next_float()` draw, modelled exactly
over `ℚ`: the raw word divided by `2^32` (randomix.cpp:52-54; `float`
rounding of the 32-bit numerator is not modelled — every concrete value used
in a theorem below is exactly representable). -/
def next_floatQ (w : Nat) : ℚ := ((w % U32 : Nat) : ℚ) / 4294967296

/-- `std::swap(array[i], array[j])` on a list. -/
def list_swap (l : List Int) (i j : Nat) : List Int :=
  (l.set i (l.getD j 0)).set j (l.getD i 0)

/-- The Fisher-Yates loop of `ImplRandShuffle` (randomix_impl.hpp:130-134):
at loop index `i ≥ 1` draw `j = next_bounded(i + 1)` and swap positions `i`
and `j`; the first argument of the recursion is the loop index. -/
def shuffle_loop (s : Nat → Nat) (fuel : Nat) : Nat → Nat → List Int → Option (List Int × Nat)
  | 0, p, l => some (l, p)
  | i + 1, p, l =>
    match PCG32.next_bounded (i + 2) s p fuel with
    | none => none
    | some (j, p') => shuffle_loop s fuel i p' (list_swap l (i + 1) j)

/-- `ImplRandShuffle` (randomix_impl.hpp:123-136).  The result pairs the
final array contents with the returned boolean. -/
def ImplRandShuffle (l : List Int) (count : Int) (s : Nat → Nat) (p fuel : Nat) :
    Option (List Int × Bool) :=
  if count ≤ 1 then some (l, true)
  else if count > 10000000 then some (l, false)
  else
    match shuffle_loop s fuel (count.toNat - 1) p l with
    | none => none
    | some (l', _) => some (l', true)

/-- The loop of `ImplRandShuffleRange` (randomix_impl.hpp:147-150): the loop
index is `i = base + k + 1` running down to `base + 1`, the draw is
`j = base + next_bounded(i - base + 1)`. -/
def shuffle_range_loop (s : Nat → Nat) (fuel base : Nat) :
    Nat → Nat → List Int → Option (List Int × Nat)
  | 0, p, l => some (l, p)
  | k + 1, p, l =>
    match PCG32.next_bounded (k + 2) s p fuel with
    | none => none
    | some (j, p') => shuffle_range_loop s fuel base k p' (list_swap l (base + k + 1) (base + j))

/-- `ImplRandShuffleRange` (randomix_impl.hpp:138-152), shuffling the
sub-range `[start, stop]` (the C++ parameter `end` is a Lean keyword). -/
def ImplRandShuffleRange (l : List Int) (start stop : Int) (s : Nat → Nat) (p fuel : Nat) :
    Option (List Int × Bool) :=
  let lo := if start > stop then stop else start
  let hi := if start > stop then start else stop
  if hi - lo < 1 then some (l, true)
  else if lo < 0 then some (l, false)
  else if hi > 10000000 then some (l, false)
  else
    match shuffle_range_loop s fuel lo.toNat (hi.toNat - lo.toNat) p l with
    | none => none
    | some (l', _) => some (l', true)

/-- The overflow guard of `ImplRandBoolWeighted` (randomix_impl.hpp:83-86):
the weights actually summed after the guard. -/
def bool_weighted_guarded (trueWeight falseWeight : Int) : Int × Int :=
  if trueWeight > INT_MAX - falseWeight then (trueWeight / 2, falseWeight / 2)
  else (trueWeight, falseWeight)

/-- `ImplRandBoolWeighted` (randomix_impl.hpp:79-91). -/
def ImplRandBoolWeighted (trueWeight falseWeight : Int) (s : Nat → Nat) (p fuel : Nat) :
    Option (Bool × Nat) :=
  if trueWeight ≤ 0 then some (false, p)
  else if falseWeight ≤ 0 then some (true, p)
  else
    let w := bool_weighted_guarded trueWeight falseWeight
    let total := toUInt32 (w.1 + w.2)
    match PCG32.next_bounded total s p fuel with
    | none => none
    | some (v, p') => some (v < toUInt32 w.1, p')

/-- `PRandBoolWeighted` (main.cpp:603-610) = `n_PRandBoolWeighted`
(main_samp.cpp:146-156): no overflow guard; the signed sum `trueW + falseW`
(undefined behaviour on overflow, modelled as two's-complement wrap) is cast
to `uint32_t` and passed to the bounded draw. -/
def PRandBoolWeighted (trueW falseW : Int) (s : Nat → Nat) (p fuel : Nat) :
    Option (Bool × Nat) :=
  if trueW ≤ 0 then some (false, p)
  else if falseW ≤ 0 then some (true, p)
  else
    let total := toUInt32 (trueW + falseW)
    match PCG32.next_bounded total s p fuel with
    | none => none
    | some (v, p') => some (v < toUInt32 trueW, p')

/-- The summing loop of the dice roll: `total += next_bounded(uSides) + 1`
with `total` a `uint32_t` (randomix_impl.hpp:179-181, main.cpp:707-709). -/
def dice_loop (uSides : Nat) (s : Nat → Nat) (fuel : Nat) :
    Nat → Nat → Nat → Option (Nat × Nat)
  | 0, p, total => some (total, p)
  | n + 1, p, total =>
    match PCG32.next_bounded uSides s p fuel with
    | none => none
    | some (v, p') => dice_loop uSides s fuel n p' ((total + v + 1) % U32)

/-- `ImplRandDice` (randomix_impl.hpp:171-184): rejects `sides > 10000` and
`count > 10000` with result 0. -/
def ImplRandDice (sides count : Int) (s : Nat → Nat) (p fuel : Nat) : Option (Int × Nat) :=
  if sides ≤ 0 ∨ count ≤ 0 then some (0, p)
  else if sides > 10000 ∨ count > 10000 then some (0, p)
  else
    match dice_loop (toUInt32 sides) s fuel count.toNat p 0 with
    | none => none
    | some (total, p') => some (toInt32 total, p')

/-- `PRandDice` (main.cpp:700-713), the open.mp native: same roll loop but
with no upper cap on `sides` or `count`. -/
def PRandDice (sides count : Int) (s : Nat → Nat) (p fuel : Nat) : Option (Int × Nat) :=
  if sides ≤ 0 ∨ count ≤ 0 then some (0, p)
  else
    match dice_loop (toUInt32 sides) s fuel count.toNat p 0 with
    | none => none
    | some (total, p') => some (toInt32 total, p')

/-- The rejection loop of `ImplRandPointInSphere` (randomix_impl.hpp:407-415):
draw `(x, y, z)` in `[-1, 1]³` from three raw words, reject while
`sq > 1 ∨ sq = 0`, and give up (`return false`, here `none`) once the
attempt counter would exceed 10000; the last argument is the number of
attempts still allowed. -/
def impl_sphere_loop (s : Nat → Nat) : Nat → Nat → Option (ℚ × ℚ × ℚ × Nat)
  | _, 0 => none
  | p, rem + 1 =>
    let x := next_floatQ (s p) * 2 - 1
    let y := next_floatQ (s (p + 1)) * 2 - 1
    let z := next_floatQ (s (p + 2)) * 2 - 1
    let sq := x * x + y * y + z * z
    if sq > 1 ∨ sq = 0 then impl_sphere_loop s (p + 3) rem
    else some (x, y, z, p + 3)

/-- `ImplRandPointInSphere` (randomix_impl.hpp:401-423) up to the accepted
direction: `none` is `return false` (non-positive radius or retry
exhaustion); the subsequent `cbrt`/`sqrt` rescaling of an accepted triple is
irrational and outside the rational embedding, so the sampler is modelled up
to the accepted `(x, y, z)` and the stream position. -/
def ImplRandPointInSphere (radius : ℚ) (s : Nat → Nat) (p : Nat) :
    Option (ℚ × ℚ × ℚ × Nat) :=
  if radius ≤ 0 then none
  else impl_sphere_loop s p 10000

/-- The rejection loop of `n_PRandPointInSphere` (main_samp.cpp:566-573),
the SA-MP native: identical draw and rejection condition, but no attempt
counter at all — `fuel` is an observation bound, `none` meaning the loop has
not produced a result within `fuel` iterations. -/
def samp_sphere_loop (s : Nat → Nat) : Nat → Nat → Option (ℚ × ℚ × ℚ × Nat)
  | _, 0 => none
  | p, fuel + 1 =>
    let x := next_floatQ (s p) * 2 - 1
    let y := next_floatQ (s (p + 1)) * 2 - 1
    let z := next_floatQ (s (p + 2)) * 2 - 1
    let sq := x * x + y * y + z * z
    if sq > 1 ∨ sq = 0 then samp_sphere_loop s (p + 3) fuel
    else some (x, y, z, p + 3)

/-- The all-zero raw draw stream: every `next_uint32()` word is 0, hence
every `next_float()` is exactly 0. -/
def zero_stream : Nat → Nat := fun _ => 0

/-- The claimed shape of a `generate_block` output block, following the
words of the claim: "exactly 8 double-rounds … then adding the pre-round
state word-wise" (to be compared with the source's round loop). -/
def claimed_block8 (st : List Nat) : List Nat :=
  ChaChaRNG.feed_forward (ChaChaRNG.double_round^[8] st) st

/-- A concrete `ChaChaRNG` with the cipher constants loaded and everything
else zero, cursor at 16 (the state any freshly keyed generator is in, up to
key/nonce words). -/
def sample_rng : ChaChaRNG :=
  { state := ChaChaRNG.CONSTANTS ++ [0, 0, 0, 0, 0, 0, 0, 0, 0, 0, 0, 0],
    block := [0, 0, 0, 0, 0, 0, 0, 0, 0, 0, 0, 0, 0, 0, 0, 0],
    position := 16, counter := 0, bytes_generated := 0 }

/-- Agreement of two generator states on everything that can influence
future output: all fields except the output block, whose words matter only
while the read cursor is still inside it. -/
def same_core (g1 g2 : ChaChaRNG) : Prop :=
  g1.state = g2.state ∧ g1.position = g2.position ∧ g1.counter = g2.counter ∧
  g1.bytes_generated = g2.bytes_generated ∧ (g1.position < 16 → g1.block = g2.block)

/-- A concrete generator whose byte account has exactly reached the reseed
threshold. -/
def reseed_due_rng : ChaChaRNG :=
  { sample_rng with bytes_generated := ChaChaRNG.RESEED_THRESHOLD }

-- Basic facts about the Lemire sampler

theorem lemire_val_lt (bound r : Nat) (hb : 0 < bound) (hr : r < U32) :
    lemire_val bound r < bound := by
  unfold lemire_val
  have h : r * bound < U32 * bound := (Nat.mul_lt_mul_right hb).mpr hr
  exact Nat.div_lt_of_lt_mul h

theorem ceil_div_le_iff (b A r : Nat) (hb : 0 < b) :
    (A + b - 1) / b ≤ r ↔ A ≤ r * b := by
  rw [Nat.lt_succ_iff.symm, Nat.div_lt_iff_lt_mul hb, Nat.add_one_mul]
  generalize r * b = M
  omega

theorem lt_ceil_div_iff (b B r : Nat) (hb : 0 < b) :
    r < (B + b - 1) / b ↔ r * b < B := by
  rw [Nat.lt_iff_add_one_le, Nat.le_div_iff_mul_le hb, Nat.add_one_mul]
  generalize r * b = M
  omega

theorem lemire_threshold_eq (bound : Nat) (hbU : bound ≤ U32) :
    (U32 - bound) % bound = U32 % bound := by
  conv_rhs => rw [← Nat.sub_add_cancel hbU]
  rw [Nat.add_mod_right]

/-- A raw draw `r` is accepted and maps to `v` exactly when `r * bound` lies
in the window `[v * 2^32 + (2^32 mod bound), (v+1) * 2^32)`. -/
theorem lemire_accept_val_iff (bound r v : Nat) (hb : 0 < bound) (hbU : bound < U32) :
    (lemire_accept bound r ∧ lemire_val bound r = v) ↔
      (v * U32 + U32 % bound ≤ r * bound ∧ r * bound < (v + 1) * U32) := by
  unfold lemire_accept lemire_val
  rw [lemire_threshold_eq bound (Nat.le_of_lt hbU)]
  have hU : 0 < U32 := by decide
  have hdm : U32 * (r * bound / U32) + r * bound % U32 = r * bound :=
    Nat.div_add_mod _ _
  have hmod : r * bound % U32 < U32 := Nat.mod_lt _ hU
  constructor
  · rintro ⟨hacc, hval⟩
    rw [hval] at hdm
    constructor
    · have := Nat.not_lt.mp hacc
      calc v * U32 + U32 % bound ≤ v * U32 + r * bound % U32 := by omega
        _ = U32 * v + r * bound % U32 := by ring_nf
        _ = r * bound := hdm
    · calc r * bound = U32 * v + r * bound % U32 := hdm.symm
        _ < U32 * v + U32 := by omega
        _ = (v + 1) * U32 := by ring
  · rintro ⟨hlo, hhi⟩
    have hval : r * bound / U32 = v := by
      refine Nat.div_eq_of_lt_le ?_ hhi
      calc v * U32 ≤ v * U32 + U32 % bound := Nat.le_add_right _ _
        _ ≤ r * bound := hlo
    refine ⟨?_, hval⟩
    rw [hval, Nat.mul_comm U32 v] at hdm
    have h1 : (v + 1) * U32 = v * U32 + U32 := by ring
    omega

theorem ceil_window_diff (bound q t v : Nat) (hb : 0 < bound) (hU : U32 = bound * q + t) :
    ((v + 1) * U32 + bound - 1) / bound - (v * U32 + t + bound - 1) / bound = q := by
  have e0 : ∀ w : Nat, w * U32 = bound * (w * q) + w * t := by
    intro w
    rw [hU]
    ring
  have e1 : (v + 1) * U32 + bound - 1 = bound * ((v + 1) * q) + ((v + 1) * t + bound - 1) := by
    have h := e0 (v + 1)
    omega
  have e2 : v * U32 + t + bound - 1 = bound * (v * q) + ((v + 1) * t + bound - 1) := by
    have h := e0 v
    have hvt : (v + 1) * t = v * t + t := by ring
    omega
  rw [e1, e2, Nat.mul_add_div hb, Nat.mul_add_div hb]
  have hsq : (v + 1) * q = v * q + q := by ring
  omega

/-- Lemire uniformity: for every `v < bound` exactly `⌊2^32 / bound⌋` of the
`2^32` raw words are accepted and map to `v`. -/
theorem lemire_uniform_count (bound v : Nat) (hb : 0 < bound) (hbU : bound < U32)
    (hv : v < bound) :
    ((Finset.range U32).filter
        (fun r => lemire_accept bound r ∧ lemire_val bound r = v)).card = U32 / bound := by
  have hfilter : (Finset.range U32).filter
      (fun r => lemire_accept bound r ∧ lemire_val bound r = v) =
      Finset.Ico ((v * U32 + U32 % bound + bound - 1) / bound)
        (((v + 1) * U32 + bound - 1) / bound) := by
    ext r
    simp only [Finset.mem_filter, Finset.mem_range, Finset.mem_Ico]
    constructor
    · rintro ⟨hr, hav⟩
      have := (lemire_accept_val_iff bound r v hb hbU).mp hav
      exact ⟨(ceil_div_le_iff bound _ r hb).mpr this.1,
             (lt_ceil_div_iff bound _ r hb).mpr this.2⟩
    · rintro ⟨hlo, hhi⟩
      have h1 : v * U32 + U32 % bound ≤ r * bound := (ceil_div_le_iff bound _ r hb).mp hlo
      have h2 : r * bound < (v + 1) * U32 := (lt_ceil_div_iff bound _ r hb).mp hhi
      have hr : r < U32 := by
        have hvb : (v + 1) * U32 ≤ bound * U32 :=
          Nat.mul_le_mul_right U32 hv
        have : r * bound < U32 * bound := by
          calc r * bound < (v + 1) * U32 := h2
            _ ≤ bound * U32 := hvb
            _ = U32 * bound := Nat.mul_comm _ _
        exact Nat.lt_of_mul_lt_mul_right this
      exact ⟨hr, (lemire_accept_val_iff bound r v hb hbU).mpr ⟨h1, h2⟩⟩
  rw [hfilter, Nat.card_Ico]
  exact ceil_window_diff bound (U32 / bound) (U32 % bound) v hb
    (Nat.div_add_mod U32 bound).symm

theorem next_bounded_loop_lt (bound threshold : Nat) (s : Nat → Nat)
    (hb : 0 < bound) :
    ∀ fuel p v p', PCG32.next_bounded_loop bound threshold s p fuel = some (v, p') →
      v < bound := by
  intro fuel
  induction fuel with
  | zero => intro p v p' h; simp [PCG32.next_bounded_loop] at h
  | succ n ih =>
    intro p v p' h
    simp only [PCG32.next_bounded_loop] at h
    by_cases hc : (s p % U32) * bound % U32 < threshold
    · rw [if_pos hc] at h
      exact ih _ _ _ h
    · rw [if_neg hc] at h
      obtain ⟨h1, h2⟩ := Prod.mk.injEq .. ▸ Option.some.inj h
      subst h1
      exact lemire_val_lt bound (s p % U32) hb (Nat.mod_lt _ (by decide))

theorem pcg_next_bounded_lt (bound : Nat) (s : Nat → Nat) (p fuel v p' : Nat)
    (hb : 0 < bound) (h : PCG32.next_bounded bound s p fuel = some (v, p')) :
    v < bound := by
  unfold PCG32.next_bounded at h
  rw [if_neg (Nat.pos_iff_ne_zero.mp hb)] at h
  simp only at h
  by_cases h1 : (s p % U32) * bound % U32 < bound
  · rw [if_pos h1] at h
    by_cases h2 : (s p % U32) * bound % U32 < (U32 - bound) % bound
    · rw [if_pos h2] at h
      exact next_bounded_loop_lt bound _ s hb fuel _ _ _ h
    · rw [if_neg h2] at h
      obtain ⟨hv, _⟩ := Prod.mk.injEq .. ▸ Option.some.inj h
      subst hv
      exact lemire_val_lt bound (s p % U32) hb (Nat.mod_lt _ (by decide))
  · rw [if_neg h1] at h
    obtain ⟨hv, _⟩ := Prod.mk.injEq .. ▸ Option.some.inj h
    subst hv
    exact lemire_val_lt bound (s p % U32) hb (Nat.mod_lt _ (by decide))

theorem chacha_next_bounded_lt (bound : Nat) (s : Nat → Nat) (p fuel v p' : Nat)
    (hb : 0 < bound) (h : ChaChaRNG.next_bounded bound s p fuel = some (v, p')) :
    v < bound := by
  unfold ChaChaRNG.next_bounded at h
  rw [if_neg (Nat.pos_iff_ne_zero.mp hb)] at h
  by_cases hb1 : bound = 1
  · rw [if_pos hb1] at h
    obtain ⟨hv, _⟩ := Prod.mk.injEq .. ▸ Option.some.inj h
    subst hv
    omega
  · rw [if_neg hb1] at h
    simp only at h
    by_cases h1 : (s p % U32) * bound % U32 < bound
    · rw [if_pos h1] at h
      by_cases h2 : (s p % U32) * bound % U32 < (U32 - bound) % bound
      · rw [if_pos h2] at h
        exact next_bounded_loop_lt bound _ s hb fuel _ _ _ h
      · rw [if_neg h2] at h
        obtain ⟨hv, _⟩ := Prod.mk.injEq .. ▸ Option.some.inj h
        subst hv
        exact lemire_val_lt bound (s p % U32) hb (Nat.mod_lt _ (by decide))
    · rw [if_neg h1] at h
      obtain ⟨hv, _⟩ := Prod.mk.injEq .. ▸ Option.some.inj h
      subst hv
      exact lemire_val_lt bound (s p % U32) hb (Nat.mod_lt _ (by decide))

/-- An accepted first draw is returned at once, with its Lemire value. -/
theorem pcg_next_bounded_accept (bound : Nat) (s : Nat → Nat) (p fuel : Nat)
    (hb : 0 < bound) (hacc : lemire_accept bound (s p % U32)) :
    PCG32.next_bounded bound s p fuel = some (lemire_val bound (s p % U32), p + 1) := by
  unfold lemire_accept at hacc
  have hmul : (s p % U32) * bound % U32 = s p % U32 * bound % U32 := rfl
  unfold PCG32.next_bounded
  rw [if_neg (Nat.pos_iff_ne_zero.mp hb)]
  simp only
  by_cases h1 : (s p % U32) * bound % U32 < bound
  · rw [if_pos h1, if_neg hacc]
    rfl
  · rw [if_neg h1]
    rfl

/-- Claim C1: `next_bounded(bound)` of both generators always yields a value
strictly below `bound` for every positive bound, raw-draw stream, position
and fuel; `next_bounded(0)` returns 0 without error in both; an accepted
first draw is returned with its Lemire value, and for every `v < bound`
exactly `⌊2^32 / bound⌋` of the `2^32` raw words are accepted and map to
`v`, so the accepted draws are uniform over `[0, bound)`. -/
theorem C1_next_bounded_uniform_in_range :
    (∀ bound s p fuel v p', 0 < bound →
        PCG32.next_bounded bound s p fuel = some (v, p') → v < bound) ∧
    (∀ bound s p fuel v p', 0 < bound →
        ChaChaRNG.next_bounded bound s p fuel = some (v, p') → v < bound) ∧
    (∀ s p fuel, PCG32.next_bounded 0 s p fuel = some (0, p)) ∧
    (∀ s p fuel, ChaChaRNG.next_bounded 0 s p fuel = some (0, p)) ∧
    (∀ bound s p fuel, 0 < bound → lemire_accept bound (s p % U32) →
        PCG32.next_bounded bound s p fuel =
          some (lemire_val bound (s p % U32), p + 1)) ∧
    (∀ bound v, 0 < bound → bound < U32 → v < bound →
        ((Finset.range U32).filter
          (fun r => lemire_accept bound r ∧ lemire_val bound r = v)).card = U32 / bound) := by
  refine ⟨?_, ?_, ?_, ?_, ?_, ?_⟩
  · intro bound s p fuel v p' hb h
    exact pcg_next_bounded_lt bound s p fuel v p' hb h
  · intro bound s p fuel v p' hb h
    exact chacha_next_bounded_lt bound s p fuel v p' hb h
  · intro s p fuel
    rfl
  · intro s p fuel
    rfl
  · intro bound s p fuel hb hacc
    exact pcg_next_bounded_accept bound s p fuel hb hacc
  · intro bound v hb hbU hv
    exact lemire_uniform_count bound v hb hbU hv

/-- Witness for C1 at `bound = 3`, the constant stream 5 and fuel 1: the
returned value `0` is below the bound and the uniform count holds at
`v = 1`. -/
theorem C1_witness :
    (0 : Nat) < 3 ∧
    ((Finset.range U32).filter
      (fun r => lemire_accept 3 r ∧ lemire_val 3 r = 1)).card = U32 / 3 :=
  ⟨C1_next_bounded_uniform_in_range.1 3 (fun _ => 5) 0 1 0 1 (by decide) (by decide),
   C1_next_bounded_uniform_in_range.2.2.2.2.2 3 1 (by decide) (by decide) (by decide)⟩

theorem next_bounded_agree (bound : Nat) (s : Nat → Nat) (p fuel : Nat) (h1 : bound ≠ 1) :
    ChaChaRNG.next_bounded bound s p fuel = PCG32.next_bounded bound s p fuel := by
  unfold ChaChaRNG.next_bounded PCG32.next_bounded
  by_cases h0 : bound = 0
  · rw [if_pos h0, if_pos h0]
  · rw [if_neg h0, if_neg h0, if_neg h1]

theorem pcg_next_bounded_one (s : Nat → Nat) (p fuel : Nat) :
    PCG32.next_bounded 1 s p fuel = some (0, p + 1) := by
  unfold PCG32.next_bounded
  rw [if_neg one_ne_zero]
  simp only [Nat.mul_one, Nat.mod_one]
  have hlt : s p % U32 < U32 := Nat.mod_lt _ (by decide)
  have hdiv : s p % U32 / U32 = 0 := Nat.div_eq_of_lt hlt
  by_cases hc : s p % U32 % U32 < 1
  · rw [if_pos hc]
    rw [if_neg (Nat.not_lt_zero _), hdiv]
  · rw [if_neg hc, hdiv]

/-- Counterexample to claim C7: at `bound = 1` the two `next_bounded`
implementations do not perform the same transformation of the raw draw
stream — on the all-zero stream ChaChaRNG's fast path consumes no raw draw
(final position 0) while PCG32 consumes one (final position 1). -/
theorem C7_counterexample :
    PCG32.next_bounded 1 zero_stream 0 1 ≠ ChaChaRNG.next_bounded 1 zero_stream 0 1 := by
  decide

/-- Claim C7 (amended): the two `next_bounded` implementations are the same
transformation of the raw 32-bit draw stream — identical value and identical
number of raw draws consumed — for every bound other than 1; at bound 1 both
return 0, but ChaChaRNG's extra fast path consumes no draw where PCG32
consumes exactly one. -/
theorem C7_bounded_shared_except_bound_one :
    (∀ bound s p fuel, bound ≠ 1 →
        ChaChaRNG.next_bounded bound s p fuel = PCG32.next_bounded bound s p fuel) ∧
    (∀ s p fuel, ChaChaRNG.next_bounded 1 s p fuel = some (0, p)) ∧
    (∀ s p fuel, PCG32.next_bounded 1 s p fuel = some (0, p + 1)) := by
  refine ⟨?_, ?_, ?_⟩
  · intro bound s p fuel h1
    exact next_bounded_agree bound s p fuel h1
  · intro s p fuel
    rfl
  · intro s p fuel
    exact pcg_next_bounded_one s p fuel

/-- Witness for C7 at `bound = 2`, the constant stream 7, fuel 1. -/
theorem C7_witness :
    ChaChaRNG.next_bounded 2 (fun _ => 7) 0 1 = PCG32.next_bounded 2 (fun _ => 7) 0 1 :=
  C7_bounded_shared_except_bound_one.1 2 (fun _ => 7) 0 1 (by decide)

theorem rounds_loop_eq_iterate :
    ∀ (k : Nat) (blk : List Nat),
      ChaChaRNG.rounds_loop k blk = ChaChaRNG.double_round^[k] blk := by
  intro k
  induction k with
  | zero => intro blk; rfl
  | succ n ih =>
    intro blk
    rw [ChaChaRNG.rounds_loop, ih, Function.iterate_succ_apply]

set_option maxRecDepth 100000 in
/-- Counterexample to claim C3: the output block of `generate_block` is not
what 8 double-rounds followed by the feed-forward produce — shown on the
concrete generator whose state is the four cipher constants followed by
zeros (the code runs `ROUNDS / 2 = 10` double-rounds). -/
theorem C3_counterexample :
    (ChaChaRNG.generate_block sample_rng).block ≠ claimed_block8 sample_rng.state := by
  decide

/-- Claim C3 (amended): `generate_block` computes each 16-word output block
by applying exactly 10 double-rounds (each 4 column quarter-rounds then 4
diagonal quarter-rounds) to a copy of the 16-word state — not 8 —, then adds
the pre-round state word-wise into the working block, then increments the
64-bit block counter and splits it little-endian across the counter words
`state[12]` and `state[13]`. -/
theorem C3_generate_block_ten_double_rounds (g : ChaChaRNG) :
    (ChaChaRNG.generate_block g).block =
      ChaChaRNG.feed_forward (ChaChaRNG.double_round^[10] g.state) g.state ∧
    (ChaChaRNG.generate_block g).counter = (g.counter + 1) % U64 ∧
    (ChaChaRNG.generate_block g).state =
      (g.state.set 12 (((g.counter + 1) % U64) % U32)).set 13
        ((((g.counter + 1) % U64) >>> 32) % U32) ∧
    (ChaChaRNG.generate_block g).position = 0 := by
  refine ⟨?_, rfl, rfl, rfl⟩
  simp only [ChaChaRNG.generate_block]
  rw [rounds_loop_eq_iterate]
  rw [show ChaChaRNG.ROUNDS / 2 = 10 from rfl]

theorem seed_same_core (g1 g2 : ChaChaRNG) (s t : Nat) :
    same_core (g1.seed s t) (g2.seed s t) := by
  refine ⟨rfl, rfl, rfl, rfl, ?_⟩
  intro h
  have hp : (g1.seed s t).position = 16 := rfl
  omega

theorem check_reseed_same_core (e t : Nat) (g1 g2 : ChaChaRNG) (h : same_core g1 g2) :
    same_core (ChaChaRNG.check_reseed e t g1) (ChaChaRNG.check_reseed e t g2) := by
  obtain ⟨hs, hp, hc, hb, hblk⟩ := h
  unfold ChaChaRNG.check_reseed
  rw [hb, hs]
  by_cases h1 : g2.bytes_generated ≥ ChaChaRNG.RESEED_THRESHOLD
  · rw [if_pos h1, if_pos h1]
    by_cases h2 : e ≠ 0
    · rw [if_pos h2, if_pos h2]
      refine ⟨rfl, rfl, rfl, rfl, ?_⟩
      intro hlt
      have h16 : (16 : Nat) < 16 := hlt
      omega
    · rw [if_neg h2, if_neg h2]
      exact ⟨hs, hp, hc, hb, hblk⟩
  · rw [if_neg h1, if_neg h1]
    exact ⟨hs, hp, hc, hb, hblk⟩

theorem chacha_eq_of_parts (a b : ChaChaRNG) (h1 : a.state = b.state)
    (h2 : a.block = b.block) (h3 : a.position = b.position) (h4 : a.counter = b.counter)
    (h5 : a.bytes_generated = b.bytes_generated) : a = b := by
  cases a
  cases b
  simp_all

theorem next_uint32_same_core (e t : Nat) (g1 g2 : ChaChaRNG) (h : same_core g1 g2) :
    (ChaChaRNG.next_uint32 e t g1).1 = (ChaChaRNG.next_uint32 e t g2).1 ∧
    same_core (ChaChaRNG.next_uint32 e t g1).2 (ChaChaRNG.next_uint32 e t g2).2 := by
  obtain ⟨hs, hp, hc, hb, hblk⟩ := check_reseed_same_core e t g1 g2 h
  simp only [ChaChaRNG.next_uint32]
  set c1 := ChaChaRNG.check_reseed e t g1 with hc1
  set c2 := ChaChaRNG.check_reseed e t g2 with hc2
  rw [hp]
  by_cases hpos : c2.position ≥ 16
  · rw [if_pos hpos, if_pos hpos]
    have hgb : ChaChaRNG.generate_block c1 = ChaChaRNG.generate_block c2 := by
      simp only [ChaChaRNG.generate_block]
      rw [hs, hc, hb]
    rw [hgb]
    exact ⟨rfl, rfl, rfl, rfl, rfl, fun _ => rfl⟩
  · rw [if_neg hpos, if_neg hpos]
    have hceq : c1 = c2 := chacha_eq_of_parts c1 c2 hs (hblk (by omega)) hp hc hb
    rw [hceq]
    exact ⟨rfl, rfl, rfl, rfl, rfl, fun _ => rfl⟩

theorem steps_same_core (e t : Nat) (g1 g2 : ChaChaRNG) (h : same_core g1 g2) :
    ∀ k, same_core (ChaChaRNG.steps e t g1 k) (ChaChaRNG.steps e t g2 k) := by
  intro k
  induction k with
  | zero => exact h
  | succ n ih => exact (next_uint32_same_core e t _ _ ih).2

set_option maxRecDepth 100000 in
/-- Counterexample to claim C2: two `ChaChaRNG` instances seeded with the
same explicit 64-bit seed 5 do not produce identical output sequences when
the high-resolution clock readings at the two seeding calls differ (0 versus
1 nanosecond): already their first `next_uint32` draws differ, because
`expand_seed` mixes the clock into the key material. -/
theorem C2_counterexample :
    ChaChaRNG.nth_draw 0 0 (sample_rng.seed 5 0) 0 ≠
      ChaChaRNG.nth_draw 0 1 (sample_rng.seed 5 1) 0 := by
  decide

/-- Claim C2 (amended): two `ChaChaRNG` instances seeded with the same
explicit 64-bit seed AND the same high-resolution clock reading produce
identical output sequences — regardless of what state either generator was
in before the seed call — as long as both subsequently run under the same
entropy environment: every `k`-th `next_uint32` draw of the one equals the
`k`-th draw of the other. -/
theorem C2_seed_determinism (g1 g2 : ChaChaRNG) (s t e : Nat) (k : Nat) :
    ChaChaRNG.nth_draw e t (g1.seed s t) k = ChaChaRNG.nth_draw e t (g2.seed s t) k :=
  (next_uint32_same_core e t _ _
    (steps_same_core e t _ _ (seed_same_core g1 g2 s t) k)).1

theorem generate_block_counter (g : ChaChaRNG) :
    (ChaChaRNG.generate_block g).counter = (g.counter + 1) % U64 := by
  simp only [ChaChaRNG.generate_block]

theorem seed_counter (g : ChaChaRNG) (s t : Nat) : (g.seed s t).counter = 0 := by
  simp only [ChaChaRNG.seed]

theorem iterate_generate_block_counter (g : ChaChaRNG) (s t : Nat) :
    ∀ k, ((ChaChaRNG.generate_block)^[k] (g.seed s t)).counter = k % U64 := by
  intro k
  induction k with
  | zero =>
    rw [Function.iterate_zero_apply, seed_counter, Nat.zero_mod]
  | succ n ih =>
    rw [Function.iterate_succ_apply', generate_block_counter, ih]
    simp only [U64]
    omega

/-- Claim C5: the 64-bit block counter is incremented exactly once per
`generate_block` call; starting from any freshly seeded generator, after `k`
block generations the counter is exactly `k mod 2^64`, so within the 2^64
counter range no two distinct block generations between two seed operations
ever use the same counter value (no counter/nonce pair reuse). -/
theorem C5_counter_no_reuse :
    (∀ g : ChaChaRNG, (ChaChaRNG.generate_block g).counter = (g.counter + 1) % U64) ∧
    (∀ (g : ChaChaRNG) (s t k : Nat),
        ((ChaChaRNG.generate_block)^[k] (g.seed s t)).counter = k % U64) ∧
    (∀ (g : ChaChaRNG) (s t k1 k2 : Nat), k1 < U64 → k2 < U64 →
        ((ChaChaRNG.generate_block)^[k1] (g.seed s t)).counter =
          ((ChaChaRNG.generate_block)^[k2] (g.seed s t)).counter → k1 = k2) := by
  refine ⟨generate_block_counter, iterate_generate_block_counter, ?_⟩
  intro g s t k1 k2 h1 h2 heq
  rw [iterate_generate_block_counter, iterate_generate_block_counter] at heq
  rw [Nat.mod_eq_of_lt h1, Nat.mod_eq_of_lt h2] at heq
  exact heq

/-- Witness for C5: with both indices 0 and a concrete seeded generator the
counter-injectivity instance yields `0 = 0`. -/
theorem C5_witness : (0 : Nat) = 0 :=
  C5_counter_no_reuse.2.2 sample_rng 5 0 0 0 (by decide) (by decide) rfl

/-- Claim C6: when the OS entropy read yields zero, `check_reseed` is the
identity — state words, output block, read cursor, counter and in particular
the `bytes_generated` accounting are all preserved, so the reseed stays due
on the next draw; when the entropy read is nonzero and the byte account has
reached the threshold, the entropy is folded by XOR into the current key
words `state[4]`/`state[5]` and the generator re-keys with the byte count
reset to zero. -/
theorem C6_reseed_zero_entropy_preserves_state :
    (∀ t g, ChaChaRNG.check_reseed 0 t g = g) ∧
    (∀ t g, g.bytes_generated ≥ ChaChaRNG.RESEED_THRESHOLD →
        (ChaChaRNG.check_reseed 0 t g).state = g.state ∧
        (ChaChaRNG.check_reseed 0 t g).block = g.block ∧
        (ChaChaRNG.check_reseed 0 t g).position = g.position ∧
        (ChaChaRNG.check_reseed 0 t g).counter = g.counter ∧
        (ChaChaRNG.check_reseed 0 t g).bytes_generated = g.bytes_generated) ∧
    (∀ e t g, e ≠ 0 → g.bytes_generated ≥ ChaChaRNG.RESEED_THRESHOLD →
        ChaChaRNG.check_reseed e t g =
          { g.seed (((g.state.getD 4 0) <<< 32 ||| g.state.getD 5 0) ^^^ e) t with
              bytes_generated := 0 } ∧
        (ChaChaRNG.check_reseed e t g).bytes_generated = 0) := by
  have hzero : ∀ t g, ChaChaRNG.check_reseed 0 t g = g := by
    intro t g
    unfold ChaChaRNG.check_reseed
    by_cases h1 : g.bytes_generated ≥ ChaChaRNG.RESEED_THRESHOLD
    · rw [if_pos h1, if_neg (by omega)]
    · rw [if_neg h1]
  refine ⟨hzero, ?_, ?_⟩
  · intro t g _
    rw [hzero]
    exact ⟨rfl, rfl, rfl, rfl, rfl⟩
  · intro e t g he hth
    have hres : ChaChaRNG.check_reseed e t g =
        { g.seed (((g.state.getD 4 0) <<< 32 ||| g.state.getD 5 0) ^^^ e) t with
            bytes_generated := 0 } := by
      unfold ChaChaRNG.check_reseed
      rw [if_pos hth, if_pos he]
    exact ⟨hres, by rw [hres]⟩

/-- Witness for C6 on a concrete generator whose byte account has reached
the threshold: with zero entropy every component is preserved. -/
theorem C6_witness :
    (ChaChaRNG.check_reseed 0 0 reseed_due_rng).state = reseed_due_rng.state ∧
    (ChaChaRNG.check_reseed 0 0 reseed_due_rng).block = reseed_due_rng.block ∧
    (ChaChaRNG.check_reseed 0 0 reseed_due_rng).position = reseed_due_rng.position ∧
    (ChaChaRNG.check_reseed 0 0 reseed_due_rng).counter = reseed_due_rng.counter ∧
    (ChaChaRNG.check_reseed 0 0 reseed_due_rng).bytes_generated =
      reseed_due_rng.bytes_generated :=
  C6_reseed_zero_entropy_preserves_state.2.1 0 reseed_due_rng (by decide)

theorem impl_sphere_loop_zero_stream (rem : Nat) :
    ∀ p, impl_sphere_loop zero_stream p rem = none := by
  induction rem with
  | zero => intro p; rfl
  | succ n ih =>
    intro p
    simp only [impl_sphere_loop, zero_stream, next_floatQ]
    norm_num [U32]
    exact ih (p + 3)

theorem samp_sphere_loop_zero_stream (fuel : Nat) :
    ∀ p, samp_sphere_loop zero_stream p fuel = none := by
  induction fuel with
  | zero => intro p; rfl
  | succ n ih =>
    intro p
    simp only [samp_sphere_loop, zero_stream, next_floatQ]
    norm_num [U32]
    exact ih (p + 3)

/-- Claim C4 is right about `ImplRandPointInSphere` (its loop carries the
10000-attempt bound and exhaustion is the defined failure `none`), but the
SA-MP native `n_PRandPointInSphere` duplicates the loop WITHOUT any attempt
counter: on the raw-draw stream that is constantly 0 (every drawn triple is
`(-1, -1, -1)`, `sq = 3 > 1`, rejected), the native's loop produces no
result within `fuel` iterations for ANY `fuel` — it never terminates and
never reports failure — while the shared implementation returns its defined
failure. -/
theorem C4_sphere_loop_unbounded_in_samp_native :
    (∀ p fuel, samp_sphere_loop zero_stream p fuel = none) ∧
    (∀ p, ImplRandPointInSphere 1 zero_stream p = none) ∧
    (∀ p rem, impl_sphere_loop zero_stream p rem = none) := by
  refine ⟨?_, ?_, ?_⟩
  · intro p fuel
    exact samp_sphere_loop_zero_stream fuel p
  · intro p
    unfold ImplRandPointInSphere
    rw [if_neg (by norm_num)]
    exact impl_sphere_loop_zero_stream 10000 p
  · intro p rem
    exact impl_sphere_loop_zero_stream rem p

theorem getD_cons_set_perm :
    ∀ (t : List Int) (k : Nat) (x : Int), k < t.length →
      List.Perm ((t.getD k 0) :: t.set k x) (x :: t) := by
  intro t
  induction t with
  | nil => intro k x hk; simp at hk
  | cons y s ih =>
    intro k x hk
    cases k with
    | zero =>
      simp only [List.getD_cons_zero, List.set_cons_zero]
      exact List.Perm.swap x y s
    | succ n =>
      simp only [List.getD_cons_succ, List.set_cons_succ]
      have hn : n < s.length := by simpa using hk
      exact ((List.Perm.swap y (s.getD n 0) (s.set n x)).trans
        ((ih n x hn).cons y)).trans (List.Perm.swap x y s)

theorem list_swap_perm :
    ∀ (l : List Int) (i j : Nat), i < l.length → j < l.length →
      List.Perm (list_swap l i j) l := by
  intro l
  induction l with
  | nil => intro i j hi _; simp at hi
  | cons x t ih =>
    intro i j hi hj
    cases i with
    | zero =>
      cases j with
      | zero =>
        simp [list_swap]
      | succ n =>
        have hn : n < t.length := by simpa using hj
        simp only [list_swap, List.getD_cons_succ, List.getD_cons_zero,
          List.set_cons_zero, List.set_cons_succ]
        exact getD_cons_set_perm t n x hn
    | succ m =>
      cases j with
      | zero =>
        have hm : m < t.length := by simpa using hi
        simp only [list_swap, List.getD_cons_succ, List.getD_cons_zero,
          List.set_cons_zero, List.set_cons_succ]
        exact getD_cons_set_perm t m x hm
      | succ n =>
        have hm : m < t.length := by simpa using hi
        have hn : n < t.length := by simpa using hj
        simp only [list_swap, List.getD_cons_succ, List.set_cons_succ]
        exact (ih m n hm hn).cons x

theorem list_swap_length (l : List Int) (i j : Nat) :
    (list_swap l i j).length = l.length := by
  simp [list_swap]

theorem shuffle_loop_perm (s : Nat → Nat) (fuel : Nat) :
    ∀ i p l l' p', i < l.length →
      shuffle_loop s fuel i p l = some (l', p') → List.Perm l' l := by
  intro i
  induction i with
  | zero =>
    intro p l l' p' _ h
    obtain ⟨h1, _⟩ := Prod.mk.injEq .. ▸ Option.some.inj h
    subst h1
    exact List.Perm.refl l
  | succ n ih =>
    intro p l l' p' hi h
    simp only [shuffle_loop] at h
    cases hnb : PCG32.next_bounded (n + 2) s p fuel with
    | none => rw [hnb] at h; cases h
    | some jp =>
      rw [hnb] at h
      obtain ⟨j, p2⟩ := jp
      have hj : j < n + 2 := pcg_next_bounded_lt (n + 2) s p fuel j p2 (by omega) hnb
      have hlen : (list_swap l (n + 1) j).length = l.length := list_swap_length l (n + 1) j
      have hrec := ih p2 (list_swap l (n + 1) j) l' p' (by omega) h
      exact hrec.trans (list_swap_perm l (n + 1) j hi (by omega))

theorem shuffle_range_loop_perm (s : Nat → Nat) (fuel base : Nat) :
    ∀ k p l l' p', base + k < l.length →
      shuffle_range_loop s fuel base k p l = some (l', p') → List.Perm l' l := by
  intro k
  induction k with
  | zero =>
    intro p l l' p' _ h
    obtain ⟨h1, _⟩ := Prod.mk.injEq .. ▸ Option.some.inj h
    subst h1
    exact List.Perm.refl l
  | succ n ih =>
    intro p l l' p' hi h
    simp only [shuffle_range_loop] at h
    cases hnb : PCG32.next_bounded (n + 2) s p fuel with
    | none => rw [hnb] at h; cases h
    | some jp =>
      rw [hnb] at h
      obtain ⟨j, p2⟩ := jp
      have hj : j < n + 2 := pcg_next_bounded_lt (n + 2) s p fuel j p2 (by omega) hnb
      have hlen : (list_swap l (base + n + 1) (base + j)).length = l.length :=
        list_swap_length l (base + n + 1) (base + j)
      have hrec := ih p2 (list_swap l (base + n + 1) (base + j)) l' p' (by omega) h
      exact hrec.trans (list_swap_perm l (base + n + 1) (base + j) (by omega) (by omega))

theorem shuffle_range_result (l : List Int) (start stop : Int) (s : Nat → Nat)
    (p fuel : Nat) (l' : List Int) (b : Bool)
    (hlo : start ≤ stop) (hhi : stop.toNat < l.length)
    (h : ImplRandShuffleRange l start stop s p fuel = some (l', b)) :
    List.Perm l' l := by
  simp only [ImplRandShuffleRange] at h
  rw [if_neg (by omega : ¬ start > stop), if_neg (by omega : ¬ start > stop)] at h
  by_cases h1 : stop - start < 1
  · rw [if_pos h1] at h
    obtain ⟨h1', _⟩ := Prod.mk.injEq .. ▸ Option.some.inj h
    subst h1'
    exact List.Perm.refl l
  · rw [if_neg h1] at h
    by_cases h2 : start < 0
    · rw [if_pos h2] at h
      obtain ⟨h1', _⟩ := Prod.mk.injEq .. ▸ Option.some.inj h
      subst h1'
      exact List.Perm.refl l
    · rw [if_neg h2] at h
      by_cases h3 : stop > 10000000
      · rw [if_pos h3] at h
        obtain ⟨h1', _⟩ := Prod.mk.injEq .. ▸ Option.some.inj h
        subst h1'
        exact List.Perm.refl l
      · rw [if_neg h3] at h
        cases hsl : shuffle_range_loop s fuel start.toNat (stop.toNat - start.toNat) p l with
        | none => rw [hsl] at h; cases h
        | some lp =>
          rw [hsl] at h
          obtain ⟨l2, p2⟩ := lp
          obtain ⟨h1', _⟩ := Prod.mk.injEq .. ▸ Option.some.inj h
          subst h1'
          exact shuffle_range_loop_perm s fuel start.toNat
            (stop.toNat - start.toNat) p l l2 p2 (by omega) hsl

/-- Claim C8: `ImplRandShuffle` (and `ImplRandShuffleRange` on its
sub-range) is a bijection on array contents — for every array, count within
the array, raw-draw stream, position and fuel, whenever the call returns,
the multiset of elements of the resulting array equals the multiset before;
and a count of at most 1, or a sub-range of a single index, is a no-op that
returns success leaving the array unchanged. -/
theorem C8_shuffle_preserves_multiset :
    (∀ (l : List Int) (count : Int) (s : Nat → Nat) (p fuel : Nat) (l' : List Int) (b : Bool),
        count.toNat ≤ l.length →
        ImplRandShuffle l count s p fuel = some (l', b) →
        (l' : Multiset Int) = (l : Multiset Int)) ∧
    (∀ (l : List Int) (count : Int) (s : Nat → Nat) (p fuel : Nat), count ≤ 1 →
        ImplRandShuffle l count s p fuel = some (l, true)) ∧
    (∀ (l : List Int) (start stop : Int) (s : Nat → Nat) (p fuel : Nat)
        (l' : List Int) (b : Bool),
        start.toNat < l.length → stop.toNat < l.length →
        ImplRandShuffleRange l start stop s p fuel = some (l', b) →
        (l' : Multiset Int) = (l : Multiset Int)) ∧
    (∀ (l : List Int) (a : Int) (s : Nat → Nat) (p fuel : Nat),
        ImplRandShuffleRange l a a s p fuel = some (l, true)) := by
  refine ⟨?_, ?_, ?_, ?_⟩
  · intro l count s p fuel l' b hlen h
    unfold ImplRandShuffle at h
    by_cases hc1 : count ≤ 1
    · rw [if_pos hc1] at h
      obtain ⟨h1', _⟩ := Prod.mk.injEq .. ▸ Option.some.inj h
      subst h1'
      rfl
    · rw [if_neg hc1] at h
      by_cases hc2 : count > 10000000
      · rw [if_pos hc2] at h
        obtain ⟨h1', _⟩ := Prod.mk.injEq .. ▸ Option.some.inj h
        subst h1'
        rfl
      · rw [if_neg hc2] at h
        cases hsl : shuffle_loop s fuel (count.toNat - 1) p l with
        | none => rw [hsl] at h; cases h
        | some lp =>
          rw [hsl] at h
          obtain ⟨l2, p2⟩ := lp
          obtain ⟨h1', _⟩ := Prod.mk.injEq .. ▸ Option.some.inj h
          subst h1'
          exact Multiset.coe_eq_coe.mpr
            (shuffle_loop_perm s fuel (count.toNat - 1) p l l2 p2 (by omega) hsl)
  · intro l count s p fuel hc
    unfold ImplRandShuffle
    rw [if_pos hc]
  · intro l start stop s p fuel l' b hs hp h
    by_cases hss : start ≤ stop
    · exact Multiset.coe_eq_coe.mpr (shuffle_range_result l start stop s p fuel l' b hss hp h)
    · have hswap : ImplRandShuffleRange l start stop s p fuel =
          ImplRandShuffleRange l stop start s p fuel := by
        simp only [ImplRandShuffleRange]
        rw [show (if start > stop then stop else start) = stop from if_pos (by omega),
          show (if start > stop then start else stop) = start from if_pos (by omega),
          show (if stop > start then stop else start) = start from if_neg (by omega),
          show (if stop > start then start else stop) = stop from if_neg (by omega)]
      rw [hswap] at h
      exact Multiset.coe_eq_coe.mpr
        (shuffle_range_result l stop start s p fuel l' b (by omega) hs h)
  · intro l a s p fuel
    simp only [ImplRandShuffleRange]
    rw [if_neg (by omega : ¬ a > a), if_pos (by omega : a - a < 1)]

/-- Witness for C8 on a concrete 3-element array with the constant stream 7
and fuel 1: the shuffled result is a rearrangement with the same multiset,
and the degenerate calls are no-ops. -/
theorem C8_witness :
    (([4, 5, 6] : List Int) : Multiset Int) = (([4, 5, 6] : List Int) : Multiset Int) ∧
    ImplRandShuffle [4, 5, 6] 1 (fun _ => 7) 0 1 = some ([4, 5, 6], true) := by
  constructor
  · have h := C8_shuffle_preserves_multiset.1 [4, 5, 6] 3 (fun _ => 7) 0 1
      ((ImplRandShuffle [4, 5, 6] 3 (fun _ => 7) 0 1).get (by decide)).1
      ((ImplRandShuffle [4, 5, 6] 3 (fun _ => 7) 0 1).get (by decide)).2
      (by decide) (by decide)
    calc (([4, 5, 6] : List Int) : Multiset Int)
        = (((ImplRandShuffle [4, 5, 6] 3 (fun _ => 7) 0 1).get (by decide)).1 : Multiset Int) := by
          decide
      _ = (([4, 5, 6] : List Int) : Multiset Int) := h
  · exact C8_shuffle_preserves_multiset.2.1 [4, 5, 6] 1 (fun _ => 7) 0 1 (by decide)

/-- Claim C9 is right about `ImplRandBoolWeighted`: its guard halves both
weights whenever the signed sum would exceed `INT_MAX`, so the summed total
never overflows.  But the direct natives `PRandBoolWeighted` (open.mp) and
`n_PRandBoolWeighted` (SA-MP) have NO guard: at `trueW = falseW = 2^30` the
shared implementation sums the halved weights to `2^30` while the natives
compute `trueW + falseW = 2^31 > INT_MAX` — a signed-int overflow — and
pass the wrapped unsigned value `2^31` to the bounded draw. -/
theorem C9_weighted_boolean_overflow_guard :
    (∀ tW fW : Int, 0 < tW → 0 < fW → tW ≤ INT_MAX → fW ≤ INT_MAX →
        (bool_weighted_guarded tW fW).1 + (bool_weighted_guarded tW fW).2 ≤ INT_MAX) ∧
    (∀ tW fW : Int, INT_MAX - fW < tW →
        bool_weighted_guarded tW fW = (tW / 2, fW / 2)) ∧
    ((1073741824 : Int) + 1073741824 > INT_MAX) ∧
    toUInt32 ((bool_weighted_guarded 1073741824 1073741824).1 +
        (bool_weighted_guarded 1073741824 1073741824).2) = 1073741824 ∧
    toUInt32 ((1073741824 : Int) + 1073741824) = 2147483648 := by
  refine ⟨?_, ?_, by decide, by decide, by decide⟩
  · intro tW fW h1 h2 h3 h4
    unfold bool_weighted_guarded
    by_cases hg : tW > INT_MAX - fW
    · rw [if_pos hg]
      simp only [INT_MAX] at *
      omega
    · rw [if_neg hg]
      simp only [INT_MAX] at *
      omega
  · intro tW fW hg
    unfold bool_weighted_guarded
    rw [if_pos (by omega : tW > INT_MAX - fW)]

/-- Witness for C9 at the in-range weights 3 and 5. -/
theorem C9_witness :
    (bool_weighted_guarded 3 5).1 + (bool_weighted_guarded 3 5).2 ≤ INT_MAX :=
  C9_weighted_boolean_overflow_guard.1 3 5 (by decide) (by decide) (by decide) (by decide)

/-- Claim C10: `ImplRandDice` returns 0 (consuming no draws) whenever
`sides > 10000` or `count > 10000`, although such inputs are valid positive
dice parameters, while the open.mp native `PRandDice` applies no cap and
returns the sum of `count` draws of `bounded(sides) + 1`; at
`sides = 20000, count = 1` on the constant raw stream 1 the implementation
returns 0 and the native returns 1, so the two entry points disagree. -/
theorem C10_dice_cap_divergence :
    (∀ (sides count : Int) (s : Nat → Nat) (p fuel : Nat), 10000 < sides →
        ImplRandDice sides count s p fuel = some (0, p)) ∧
    (∀ (sides count : Int) (s : Nat → Nat) (p fuel : Nat), 10000 < count →
        ImplRandDice sides count s p fuel = some (0, p)) ∧
    ImplRandDice 20000 1 (fun _ => 1) 0 1 = some (0, 0) ∧
    PRandDice 20000 1 (fun _ => 1) 0 1 = some (1, 1) ∧
    ImplRandDice 20000 1 (fun _ => 1) 0 1 ≠ PRandDice 20000 1 (fun _ => 1) 0 1 := by
  refine ⟨?_, ?_, by decide, by decide, by decide⟩
  · intro sides count s p fuel hcap
    unfold ImplRandDice
    by_cases h0 : sides ≤ 0 ∨ count ≤ 0
    · rw [if_pos h0]
    · rw [if_neg h0, if_pos (Or.inl (by omega))]
  · intro sides count s p fuel hcap
    unfold ImplRandDice
    by_cases h0 : sides ≤ 0 ∨ count ≤ 0
    · rw [if_pos h0]
    · rw [if_neg h0, if_pos (Or.inr (by omega))]

/-- Witness for C10: the cap fires at `sides = 20000, count = 5`. -/
theorem C10_witness :
    ImplRandDice 20000 5 (fun _ => 1) 0 1 = some (0, 0) :=
  C10_dice_cap_divergence.1 20000 5 (fun _ => 1) 0 1 (by decide)
